import Mathlib

/-!
Verification of the hash-set reference design described by the repository's
specification.  The repository itself contains no executable set
implementation (its single source file, `collections/set.py`, is prose and
interpreter transcripts about the behaviour of the built-in `set` and
`frozenset` container), so the container below is modelled from the
specification's §3–§7, kept consistent with the behaviour the source file's
transcripts record (KeyError on `remove` of an absent element, no error from
`discard`, KeyError on `pop` of an empty set, TypeError on adding an
unhashable element, `difference()`/`intersection()` with no arguments
returning a copy, `frozenset -= y` falling back to plain difference).

A `HashSet` is represented by its list of stored elements together with the
no-duplicates invariant; iteration order is unspecified by the design, and
membership is the only observable the specification's laws speak about.
-/

/-- Modelled from the spec: the error taxonomy of §7.  The repository has no
implementation of these error types; only the spec (and the source file's
transcripts, where they appear as KeyError / TypeError) describes them. -/
inductive SetError where
  | NotFoundError
  | EmptyContainerError
  | NotIterableError
  | UnhashableElementError
deriving DecidableEq, Repr

/-- Modelled from the spec: a `HashSet<T>` is an unordered collection of
unique elements (§3).  We carry the stored elements as a list with the
invariant that no two stored elements compare equal.  The repository has no
implementation of the container itself. -/
structure HashSet (α : Type) where
  elems : List α
  nodup : elems.Nodup

/-- Modelled from the spec: `FrozenHashSet<T>`, the immutable variant (§4.2):
same representation, mutation operations statically unavailable. -/
structure FrozenHashSet (α : Type) where
  elems : List α
  nodup : elems.Nodup

namespace HashSet

variable {α : Type} [DecidableEq α]

/-- Modelled from the spec: construction from a finite iterable,
deduplicating via equality (§3 lifecycle, §4.2). -/
def fromList (l : List α) : HashSet α :=
  ⟨l.dedup, l.nodup_dedup⟩

/-- Modelled from the spec: `size()` — current cardinality (§4.1). -/
def size (s : HashSet α) : Nat :=
  s.elems.length

/-- Modelled from the spec: `contains(elem)` — standard membership (§4.1). -/
def contains (s : HashSet α) (e : α) : Bool :=
  decide (e ∈ s.elems)

/-- Modelled from the spec: the element-type equality/hash contract (§6):
external code supplies, for element type `T`, whether a value provides a
stable equality/hash contract.  Values failing it are rejected at insertion
time (§7, `UnhashableElementError`). -/
class HashContract (α : Type) where
  hashable : α → Bool

/-- Modelled from the spec: `add(elem)` (§4.1, §7) — inserts `elem` if not
already present; no-op if present; fails with `UnhashableElementError`,
leaving the set unchanged, when `elem` has no stable equality/hash contract.
The result pairs the reported outcome with the state of the set after the
call, so atomicity (§7) is observable. -/
def add [HashContract α] (s : HashSet α) (e : α) :
    Except SetError Unit × HashSet α :=
  if HashContract.hashable e then
    if h : e ∈ s.elems then (.ok (), s)
    else (.ok (), ⟨e :: s.elems, s.nodup.cons h⟩)
  else
    (.error .UnhashableElementError, s)

/-- Modelled from the spec: `remove(elem)` (§4.1, §7) — removes `elem`;
fails with `NotFoundError` if absent (always surfaced to the caller). -/
def remove (s : HashSet α) (e : α) : Except SetError (HashSet α) :=
  if e ∈ s.elems then
    .ok ⟨s.elems.erase e, s.nodup.erase e⟩
  else
    .error .NotFoundError

/-- Modelled from the spec: `discard(elem)` (§4.1) — removes `elem` if
present; no-op and no error if absent. -/
def discard (s : HashSet α) (e : α) : HashSet α :=
  ⟨s.elems.erase e, s.nodup.erase e⟩

/-- Modelled from the spec: `pop()` (§4.1, §7) — removes and returns an
arbitrary element (here the first stored one; no ordering is guaranteed);
fails with `EmptyContainerError` if the set is empty. -/
def pop : HashSet α → Except SetError (α × HashSet α)
  | ⟨[], _⟩ => .error .EmptyContainerError
  | ⟨x :: xs, h⟩ => .ok (x, ⟨xs, h.of_cons⟩)

/-- Modelled from the spec: `difference(*others)` (§4.1) — elements in self
not in any of the others; the zero-arg form returns a copy of self.  Each
other is any finite iterable, taken as a list. -/
def difference (s : HashSet α) (others : List (List α)) : HashSet α :=
  ⟨s.elems.filter (fun e => others.all (fun o => !decide (e ∈ o))),
   s.nodup.filter _⟩

/-- Modelled from the spec: `intersection(*others)` (§4.1) — elements in
self and in all others; the zero-arg form returns a copy of self. -/
def intersection (s : HashSet α) (others : List (List α)) : HashSet α :=
  ⟨s.elems.filter (fun e => others.all (fun o => decide (e ∈ o))),
   s.nodup.filter _⟩

/-- Modelled from the spec: `union(*others)` (§4.1) — all elements present
in self or in any other, deduplicated. -/
def union (s : HashSet α) (others : List (List α)) : HashSet α :=
  ⟨(s.elems ++ others.foldr (· ++ ·) []).dedup, List.nodup_dedup _⟩

/-- Modelled from the spec: `symmetricDifference(other)` (§4.1) — elements
in exactly one of self/other (binary only). -/
def symmetricDifference (s : HashSet α) (other : List α) : HashSet α :=
  ⟨s.elems.filter (fun e => !decide (e ∈ other)) ++
     other.dedup.filter (fun e => !decide (e ∈ s.elems)),
   by
     refine (s.nodup.filter _).append (other.nodup_dedup.filter _) ?_
     intro a ha hb
     have ha' := List.of_mem_filter ha
     have hb1 := List.mem_of_mem_filter hb
     have hb2 := List.of_mem_filter hb
     simp only [Bool.not_eq_true', decide_eq_false_iff_not] at ha' hb2
     exact hb2 (List.mem_of_mem_filter ha)⟩

/-- Modelled from the spec: `isDisjointFrom(other)` (§4.1) — true iff the
intersection would be empty; accepts any finite iterable, checking each of
the other's elements for membership in self. -/
def isDisjointFrom (s : HashSet α) (other : List α) : Bool :=
  other.all (fun e => !s.contains e)

/-- Modelled from the spec: `copy()` (§4.1) — a new HashSet with the same
elements. -/
def copy (s : HashSet α) : HashSet α :=
  ⟨s.elems, s.nodup⟩

/-- Modelled from the spec: set equality (§4.1) — identical element
membership, regardless of insertion order or internal capacity. -/
def setEq (s t : HashSet α) : Bool :=
  s.elems.all t.contains && t.elems.all s.contains

end HashSet

namespace FrozenHashSet

variable {α : Type} [DecidableEq α]

/-- Modelled from the spec: FrozenHashSet construction from a finite
iterable, deduplicating via equality (§4.2) — the only way to establish
contents. -/
def fromList (l : List α) : FrozenHashSet α :=
  ⟨l.dedup, l.nodup_dedup⟩

/-- Modelled from the spec: `size()` on the frozen variant (§4.2 shares the
read-only surface of §4.1). -/
def size (s : FrozenHashSet α) : Nat :=
  s.elems.length

/-- Modelled from the spec: `contains(elem)` on the frozen variant. -/
def contains (s : FrozenHashSet α) (e : α) : Bool :=
  decide (e ∈ s.elems)

/-- Modelled from the spec: `difference(*others)` on the frozen variant —
identical semantics to the mutable variant's read-only form (§4.2). -/
def difference (s : FrozenHashSet α) (others : List (List α)) :
    FrozenHashSet α :=
  ⟨s.elems.filter (fun e => others.all (fun o => !decide (e ∈ o))),
   s.nodup.filter _⟩

/-- Modelled from the spec: the augmented assignment `x -= y` applied to a
frozen set.  The frozen variant lacks the in-place difference
implementation, so the language's augmented assignment falls back to plain
`difference`, producing a new frozen set that is rebound to the name, while
the original object is untouched (source file, frozenset `__isub__`
fallback note).  The result pairs the value the name is rebound to with the
state of the original object after the operation. -/
def isubFallback (x : FrozenHashSet α) (y : List α) :
    FrozenHashSet α × FrozenHashSet α :=
  (x.difference [y], x)

end FrozenHashSet

/-- Modelled from the spec: a small universe of element values mirroring the
source file's demonstration (a mutable set of ints, a frozen set of ints,
plain ints): a mutable container type does not provide a stable
equality/hash contract, its frozen variant does (§3, §7; source lines
11–24). -/
inductive PyVal where
  | int : Int → PyVal
  | mset : List Int → PyVal
  | fset : List Int → PyVal
deriving DecidableEq, Repr

/-- Modelled from the spec: the equality/hash contract for `PyVal` — a
mutable set has no stable hash; ints and frozen sets do (§3, §7). -/
instance : HashSet.HashContract PyVal where
  hashable v :=
    match v with
    | .mset _ => false
    | _ => true

/-! ## Membership characterisations (shared helper lemmas) -/

namespace HashSet

variable {α : Type} [DecidableEq α]

theorem contains_eq_true_iff (s : HashSet α) (e : α) :
    s.contains e = true ↔ e ∈ s.elems := by
  simp [contains]

theorem mem_difference (s : HashSet α) (others : List (List α)) (e : α) :
    e ∈ (s.difference others).elems ↔
      e ∈ s.elems ∧ ∀ o ∈ others, e ∉ o := by
  simp [difference, List.mem_filter, List.all_eq_true]

theorem mem_intersection (s : HashSet α) (others : List (List α)) (e : α) :
    e ∈ (s.intersection others).elems ↔
      e ∈ s.elems ∧ ∀ o ∈ others, e ∈ o := by
  simp [intersection, List.mem_filter, List.all_eq_true]

omit [DecidableEq α] in
theorem mem_foldr_append (L : List (List α)) (e : α) :
    e ∈ L.foldr (· ++ ·) [] ↔ ∃ o ∈ L, e ∈ o := by
  induction L with
  | nil => simp
  | cons hd tl ih => simp [List.mem_append, ih]

theorem mem_union (s : HashSet α) (others : List (List α)) (e : α) :
    e ∈ (s.union others).elems ↔
      e ∈ s.elems ∨ ∃ o ∈ others, e ∈ o := by
  simp [union, List.mem_dedup, List.mem_append, mem_foldr_append]

theorem mem_symmetricDifference (s : HashSet α) (other : List α) (e : α) :
    e ∈ (s.symmetricDifference other).elems ↔
      (e ∈ s.elems ∧ e ∉ other) ∨ (e ∈ other ∧ e ∉ s.elems) := by
  simp [symmetricDifference, List.mem_append, List.mem_filter,
    List.mem_dedup]

theorem setEq_true_iff (s t : HashSet α) :
    s.setEq t = true ↔ (∀ e, e ∈ s.elems ↔ e ∈ t.elems) := by
  simp only [setEq, Bool.and_eq_true, List.all_eq_true, contains,
    decide_eq_true_iff]
  constructor
  · rintro ⟨h1, h2⟩ e
    exact ⟨fun he => h1 e he, fun he => h2 e he⟩
  · intro h
    exact ⟨fun e he => (h e).mp he, fun e he => (h e).mpr he⟩

end HashSet

/-! ## Claims -/

/-- C1: for every set `s` and element `e` absent from `s`, `remove e` fails
with `NotFoundError` (the error is surfaced to the caller as the result)
while `discard e` is a no-op that returns normally; for an element present
in `s`, both `remove` and `discard` delete it (it is no longer a member,
and no other element's membership changes). -/
theorem claim_C1_remove_discard {α : Type} [DecidableEq α]
    (s : HashSet α) (e : α) :
    (s.contains e = false →
      s.remove e = .error .NotFoundError ∧ s.discard e = s) ∧
    (s.contains e = true →
      s.remove e = .ok (s.discard e) ∧
      (s.discard e).contains e = false ∧
      ∀ x, x ≠ e → (s.discard e).contains x = s.contains x) := by
  constructor
  · intro h
    rw [HashSet.contains, decide_eq_false_iff_not] at h
    refine ⟨by simp [HashSet.remove, h], ?_⟩
    cases s with
    | mk l hl => simp [HashSet.discard, List.erase_of_not_mem h]
  · intro h
    rw [HashSet.contains_eq_true_iff] at h
    refine ⟨by simp [HashSet.remove, HashSet.discard, h], ?_, ?_⟩
    · simp [HashSet.discard, HashSet.contains, s.nodup.mem_erase_iff]
    · intro x hx
      simp [HashSet.discard, HashSet.contains, s.nodup.mem_erase_iff, hx]

/-- C1 witness: removing 99 from {1,2,3} fails with `NotFoundError` while
discarding 99 leaves the set untouched; both `remove 2` and `discard 2`
delete the present element 2. -/
theorem claim_C1_remove_discard_witness :
    ((HashSet.fromList [1, 2, 3]).remove (99 : Int) =
        .error .NotFoundError ∧
      (HashSet.fromList [1, 2, 3]).discard (99 : Int) =
        HashSet.fromList [1, 2, 3]) ∧
    ((HashSet.fromList [1, 2, 3]).remove (2 : Int) =
        .ok ((HashSet.fromList [1, 2, 3]).discard 2) ∧
      ((HashSet.fromList [1, 2, 3]).discard (2 : Int)).contains 2 = false ∧
      ∀ x, x ≠ (2 : Int) →
        ((HashSet.fromList [1, 2, 3]).discard 2).contains x =
          (HashSet.fromList [1, 2, 3]).contains x) :=
  ⟨(claim_C1_remove_discard (HashSet.fromList [1, 2, 3]) 99).1 (by decide),
   (claim_C1_remove_discard (HashSet.fromList [1, 2, 3]) 2).2 (by decide)⟩

/-- C2: `pop` on an empty set fails with `EmptyContainerError`; on a
non-empty set it returns some member `e` of the set together with the
remaining set, from which `e` is gone, whose cardinality is one less, and
in which every other element's membership is unchanged. -/
theorem claim_C2_pop {α : Type} [DecidableEq α] (s : HashSet α) :
    (s.size = 0 → s.pop = .error .EmptyContainerError) ∧
    (0 < s.size → ∃ e t, s.pop = .ok (e, t) ∧
      s.contains e = true ∧ t.contains e = false ∧
      t.size = s.size - 1 ∧
      ∀ x, x ≠ e → t.contains x = s.contains x) := by
  cases s with
  | mk l hl =>
    cases l with
    | nil => exact ⟨fun _ => rfl, by simp [HashSet.size]⟩
    | cons x xs =>
      refine ⟨by simp [HashSet.size], fun _ => ⟨x, ⟨xs, hl.of_cons⟩, rfl,
        ?_, ?_, rfl, ?_⟩⟩
      · simp [HashSet.contains]
      · simp [HashSet.contains, (List.nodup_cons.mp hl).1]
      · intro y hy
        simp [HashSet.contains, List.mem_cons, hy]

/-- C2 witness: popping the empty set of ints fails with
`EmptyContainerError`; popping {1,2,3} yields a member and a set of
cardinality 2. -/
theorem claim_C2_pop_witness :
    (HashSet.fromList ([] : List Int)).pop = .error .EmptyContainerError ∧
    (∃ e t, (HashSet.fromList ([1, 2, 3] : List Int)).pop = .ok (e, t) ∧
      (HashSet.fromList ([1, 2, 3] : List Int)).contains e = true ∧
      t.contains e = false ∧
      t.size = (HashSet.fromList ([1, 2, 3] : List Int)).size - 1 ∧
      ∀ x, x ≠ e → t.contains x =
        (HashSet.fromList ([1, 2, 3] : List Int)).contains x) :=
  ⟨(claim_C2_pop (HashSet.fromList ([] : List Int))).1 rfl,
   (claim_C2_pop (HashSet.fromList ([1, 2, 3] : List Int))).2 (by decide)⟩

/-- C3: inserting a value that does not satisfy the equality/hash contract
fails with `UnhashableElementError` reported at insertion time, and the
insertion is atomic: after the failing call the set is exactly what it was
before, so every element's membership is unchanged. -/
theorem claim_C3_add_unhashable {α : Type} [DecidableEq α]
    [HashSet.HashContract α] (s : HashSet α) (e : α)
    (h : HashSet.HashContract.hashable e = false) :
    (s.add e).1 = .error .UnhashableElementError ∧
    (s.add e).2 = s ∧
    ∀ x, (s.add e).2.contains x = s.contains x := by
  refine ⟨?_, ?_, ?_⟩ <;> simp [HashSet.add, h]

/-- C3 witness: mirroring the source demonstration, adding the mutable set
{1,2,3,4} to a set fails with `UnhashableElementError` and leaves the set's
membership untouched, while the frozen variant of the same contents is a
hashable element. -/
theorem claim_C3_add_unhashable_witness :
    HashSet.HashContract.hashable (PyVal.mset [1, 2, 3, 4]) = false ∧
    ((HashSet.fromList ([] : List PyVal)).add
        (PyVal.mset [1, 2, 3, 4])).1 = .error .UnhashableElementError ∧
    ((HashSet.fromList ([] : List PyVal)).add
        (PyVal.mset [1, 2, 3, 4])).2 = HashSet.fromList [] ∧
    ((HashSet.fromList ([] : List PyVal)).add
        (PyVal.fset [1, 2, 3, 4])).1 = .ok () :=
  ⟨rfl,
   (claim_C3_add_unhashable (HashSet.fromList [])
      (PyVal.mset [1, 2, 3, 4]) rfl).1,
   (claim_C3_add_unhashable (HashSet.fromList [])
      (PyVal.mset [1, 2, 3, 4]) rfl).2.1,
   rfl⟩

/-- C4: partition law — for all sets `a` and `b`,
`a.difference(b).union(a.intersection(b))` equals `a` by membership. -/
theorem claim_C4_partition_law {α : Type} [DecidableEq α]
    (a b : HashSet α) :
    HashSet.setEq
      ((a.difference [b.elems]).union [(a.intersection [b.elems]).elems])
      a = true := by
  rw [HashSet.setEq_true_iff]
  intro e
  simp only [HashSet.mem_union, HashSet.mem_difference,
    HashSet.mem_intersection, List.mem_singleton, forall_eq, exists_eq_left]
  by_cases h : e ∈ b.elems <;> tauto

/-- C5: for all sets `a` and `b`, `a.symmetricDifference(b)` equals
`a.union(b).difference(a.intersection(b))` by membership, i.e. it contains
exactly the elements in `a` or `b` but not in both. -/
theorem claim_C5_symmetric_difference {α : Type} [DecidableEq α]
    (a b : HashSet α) :
    HashSet.setEq (a.symmetricDifference b.elems)
      ((a.union [b.elems]).difference
        [(a.intersection [b.elems]).elems]) = true ∧
    ∀ e, (a.symmetricDifference b.elems).contains e = true ↔
      (e ∈ a.elems ∨ e ∈ b.elems) ∧ ¬(e ∈ a.elems ∧ e ∈ b.elems) := by
  constructor
  · rw [HashSet.setEq_true_iff]
    intro e
    simp only [HashSet.mem_symmetricDifference, HashSet.mem_difference,
      HashSet.mem_union, HashSet.mem_intersection, List.mem_singleton,
      forall_eq, exists_eq_left]
    by_cases h : e ∈ b.elems <;> tauto
  · intro e
    rw [HashSet.contains_eq_true_iff, HashSet.mem_symmetricDifference]
    tauto

/-- C6: for all sets `a` and `b`, `a.isDisjointFrom(b)` returns true if and
only if `a.intersection(b)` is the empty set (its cardinality is zero). -/
theorem claim_C6_disjoint_iff_empty_intersection {α : Type} [DecidableEq α]
    (a b : HashSet α) :
    a.isDisjointFrom b.elems = true ↔
      (a.intersection [b.elems]).size = 0 := by
  simp only [HashSet.isDisjointFrom, HashSet.size, HashSet.intersection,
    HashSet.contains, List.all_eq_true, List.length_eq_zero,
    List.filter_eq_nil_iff, Bool.not_eq_true', decide_eq_false_iff_not,
    List.all_cons, List.all_nil, Bool.and_eq_true, decide_eq_true_iff]
  constructor
  · intro h e he ⟨hb, _⟩
    exact h e hb he
  · intro h e he ha
    exact h e ha ⟨he, trivial⟩

/-- C7: constructing a `HashSet` or `FrozenHashSet` from a finite list
(possibly with duplicates) of hashable inputs yields a set whose
cardinality is the number of distinct elements of the input and whose
members are exactly the input's elements; in particular a `FrozenHashSet`
built from [1,2,3,2,1] has cardinality 3 and contains exactly 1, 2 and 3. -/
theorem claim_C7_construction_dedups :
    (∀ (α : Type) [DecidableEq α] (l : List α),
      (HashSet.fromList l).size = l.toFinset.card ∧
      (∀ e, (HashSet.fromList l).contains e = true ↔ e ∈ l) ∧
      (FrozenHashSet.fromList l).size = l.toFinset.card ∧
      (∀ e, (FrozenHashSet.fromList l).contains e = true ↔ e ∈ l)) ∧
    ((FrozenHashSet.fromList ([1, 2, 3, 2, 1] : List Int)).size = 3 ∧
      ∀ e : Int,
        (FrozenHashSet.fromList ([1, 2, 3, 2, 1] : List Int)).contains e =
            true ↔ (e = 1 ∨ e = 2 ∨ e = 3)) := by
  constructor
  · intro α _ l
    refine ⟨?_, ?_, ?_, ?_⟩
    · simp [HashSet.fromList, HashSet.size, List.card_toFinset]
    · intro e
      simp [HashSet.fromList, HashSet.contains, List.mem_dedup]
    · simp [FrozenHashSet.fromList, FrozenHashSet.size, List.card_toFinset]
    · intro e
      simp [FrozenHashSet.fromList, FrozenHashSet.contains, List.mem_dedup]
  · refine ⟨rfl, ?_⟩
    intro e
    simp only [FrozenHashSet.fromList, FrozenHashSet.contains,
      List.mem_dedup, decide_eq_true_iff, List.mem_cons,
      List.not_mem_nil, or_false]
    tauto

/-- C8: called with zero others, both `difference()` and `intersection()`
return a copy of self — a set equal to self by membership (the freshness of
the returned object is an identity property outside a value-level
embedding; membership equality is what is stated here). -/
theorem claim_C8_zero_arg_returns_copy {α : Type} [DecidableEq α]
    (s : HashSet α) :
    s.difference [] = s.copy ∧ s.intersection [] = s.copy ∧
    HashSet.setEq (s.difference []) s = true ∧
    HashSet.setEq (s.intersection []) s = true := by
  have hd : s.difference [] = s.copy := by
    cases s with
    | mk l hl => simp [HashSet.difference, HashSet.copy]
  have hi : s.intersection [] = s.copy := by
    cases s with
    | mk l hl => simp [HashSet.intersection, HashSet.copy]
  refine ⟨hd, hi, ?_, ?_⟩ <;>
    rw [HashSet.setEq_true_iff] <;>
    intro e <;>
    simp [HashSet.mem_difference, HashSet.mem_intersection]

/-- C9: applying the in-place difference operator to a frozen set does not
mutate it: lacking the in-place implementation, the operation falls back to
plain difference, rebinding the name to a new frozen set equal to
`x.difference(y)` (containing exactly the elements of `x` not in `y`),
while the original frozen set `x` and its membership are unchanged. -/
theorem claim_C9_frozen_isub_fallback {α : Type} [DecidableEq α]
    (x : FrozenHashSet α) (y : List α) :
    (x.isubFallback y).1 = x.difference [y] ∧
    (∀ e, (x.isubFallback y).1.contains e = true ↔
      e ∈ x.elems ∧ e ∉ y) ∧
    (x.isubFallback y).2 = x ∧
    ∀ e, (x.isubFallback y).2.contains e = x.contains e := by
  refine ⟨rfl, ?_, rfl, fun e => rfl⟩
  intro e
  simp [FrozenHashSet.isubFallback, FrozenHashSet.difference,
    FrozenHashSet.contains, List.mem_filter]

/-- C10: for every set `s` (the empty set included), `isDisjointFrom` of an
empty iterable returns true — the intersection with the empty collection
has no elements. -/
theorem claim_C10_disjoint_from_empty {α : Type} [DecidableEq α]
    (s : HashSet α) :
    s.isDisjointFrom [] = true ∧
    (s.intersection [([] : List α)]).size = 0 := by
  refine ⟨rfl, ?_⟩
  simp [HashSet.intersection, HashSet.size]
